import Mathlib

/-!
Verification of the text-storage and view-mapping core of the `fresh`
terminal text editor: the piece-tree differ (`src/model/piece_tree_diff.rs`),
the layout navigation functions (`src/navigation/layout_nav.rs`), the
position-mapping helpers (`src/navigation/mapping.rs`,
`src/navigation/edit_map.rs`) and `Selection` (`src/selection.rs`),
embedded shallowly as Lean functions.

Data-type declarations (`PieceTreeNode`, `LeafData`, `ViewPosition`,
`Layout`, `Viewport`) live in repository files outside the provided
sources; they are reconstructed here from the specification's data model
(spec section 3) and from how the provided sources construct and consume
them.  All algorithmic code is translated directly from the Rust sources.
-/

/-- Identifier of the immutable backing buffer a piece reads from.
Reconstructed from the data model ("original/stored" vs "added") and from
the constructors `BufferLocation::Stored(usize)` / `BufferLocation::Added(usize)`
used by the diff tests. -/
inductive BufferLocation where
  | Stored (idx : Nat)
  | Added (idx : Nat)
deriving DecidableEq, Repr

/-- Leaf summary used by the differ: `location, offset, bytes, line_feed_cnt`.
Reconstructed from the spec data model and from `LeafData::new(location,
offset, bytes, line_feed_cnt)` as used by `collect_leaves`. -/
structure LeafData where
  location : BufferLocation
  offset : Nat
  bytes : Nat
  line_feed_cnt : Option Nat
deriving DecidableEq, Repr

/-- Persistent piece-tree node: `Internal { left_bytes, lf_left, left, right }`
or `Leaf { location, offset, bytes, line_feed_cnt }`.  Reconstructed from the
spec data model and the pattern matches in `collect_leaves`.  `Arc` sharing
is irrelevant to the pure value semantics and is dropped. -/
inductive PieceTreeNode where
  | Internal (left_bytes : Nat) (lf_left : Option Nat)
      (left : PieceTreeNode) (right : PieceTreeNode)
  | Leaf (location : BufferLocation) (offset : Nat) (bytes : Nat)
      (line_feed_cnt : Option Nat)
deriving DecidableEq, Repr

/-- Output of `diff_piece_trees`.  Ranges `a..b` are encoded as pairs
`(a, b)` with exclusive end. -/
structure PieceTreeDiff where
  equal : Bool
  byte_range : Nat × Nat
  line_range : Option (Nat × Nat)
deriving DecidableEq, Repr

/-- `collect_leaves`: pre-order flattening of a tree into its leaf sequence. -/
def collect_leaves : PieceTreeNode → List LeafData
  | .Internal _ _ left right => collect_leaves left ++ collect_leaves right
  | .Leaf location offset bytes line_feed_cnt =>
      [⟨location, offset, bytes, line_feed_cnt⟩]

/-- `leaves_equal`: leaves compare equal on `location`, `offset` and `bytes`
only (backing-buffer identity); `line_feed_cnt` is ignored. -/
def leaves_equal (a b : LeafData) : Bool :=
  decide (a.location = b.location) && decide (a.offset = b.offset)
    && decide (a.bytes = b.bytes)

/-- `leaf_slices_equal`: equal lengths and pairwise `leaves_equal`. -/
def leaf_slices_equal (a b : List LeafData) : Bool :=
  decide (a.length = b.length)
    && (a.zip b).all fun p => leaves_equal p.1 p.2

/-- `sum_bytes`: total byte count of a slice of leaves. -/
def sum_bytes (leaves : List LeafData) : Nat :=
  (leaves.map LeafData.bytes).sum

/-- `sum_line_feeds`: sum of `line_feed_cnt` over a slice, `none` as soon as
any leaf's count is unknown. -/
def sum_line_feeds : List LeafData → Option Nat
  | [] => some 0
  | leaf :: rest => do
      let c ← leaf.line_feed_cnt
      let r ← sum_line_feeds rest
      pure (c + r)

/-- `lines_in_slice`: `0` for the empty slice, otherwise line feeds plus one. -/
def lines_in_slice (leaves : List LeafData) : Option Nat :=
  if leaves.isEmpty then some 0
  else (sum_line_feeds leaves).map (· + 1)

/-- Longest-common-prefix loop of `diff_piece_trees`: count of leading
pairwise `leaves_equal` leaves. -/
def common_prefix_len : List LeafData → List LeafData → Nat
  | x :: xs, y :: ys =>
      if leaves_equal x y then common_prefix_len xs ys + 1 else 0
  | _, _ => 0

/-- Suffix-counting loop of `diff_piece_trees`, on the reversed leaf lists:
counts leading pairwise-equal leaves but stops once the fuel `cap` (the
bound keeping prefix and suffix windows from overlapping) runs out. -/
def suffix_go : List LeafData → List LeafData → Nat → Nat
  | x :: xs, y :: ys, cap + 1 =>
      if leaves_equal x y then suffix_go xs ys cap + 1 else 0
  | _, _, _ => 0

/-- Longest-common-suffix loop of `diff_piece_trees`: the Rust loop
increments `suffix` while `suffix + prefix` is below both lengths and the
leaves at distance `suffix` from each end are equal; equivalently it walks
the reversed lists with fuel `min |before| |after| - prefix`. -/
def common_suffix_len (bl al : List LeafData) (pre : Nat) : Nat :=
  suffix_go bl.reverse al.reverse (min bl.length al.length - pre)

/-- Slow path of `diff_piece_trees` (everything after the fast path), on the
already-flattened leaf sequences. -/
def diff_slow (bl al : List LeafData) : PieceTreeDiff :=
  let pre := common_prefix_len bl al
  let suf := common_suffix_len bl al pre
  let after_changed := (al.drop pre).take (al.length - suf - pre)
  let start_byte := sum_bytes (al.take pre)
  let end_byte := start_byte + sum_bytes after_changed
  let line_range := (sum_line_feeds (al.take pre)).bind fun lines_before =>
    ((if after_changed.isEmpty then some 1 else lines_in_slice after_changed).map
      fun lines_in_changed => (lines_before, lines_before + lines_in_changed))
  ⟨false, (start_byte, end_byte), line_range⟩

/-- `diff_piece_trees`: flatten both trees, fast-path on elementwise-equal
leaf sequences, otherwise trim common prefix/suffix and report the changed
byte and line span in "after" coordinates. -/
def diff_piece_trees (before after : PieceTreeNode) : PieceTreeDiff :=
  let bl := collect_leaves before
  let al := collect_leaves after
  if leaf_slices_equal bl al then ⟨true, (0, 0), some (0, 0)⟩
  else diff_slow bl al

/-- Cursor position with independently optional coordinates, per the spec
data model: `{ view_line: Option<usize>, column: Option<usize>,
source_byte: Option<usize> }` (declared in `cursor.rs`, outside the
provided sources). -/
structure ViewPosition where
  view_line : Option Nat
  column : Option Nat
  source_byte : Option Nat
deriving DecidableEq, Repr

/-- Modelled from the spec: one row of wrapped on-screen text.  Of the
fields listed in the data model (rendered text, `char_mappings`, style
annotations, hard-start marker, trailing-newline flag) only those the
navigation code reads are kept; styles are opaque to this core. -/
structure ViewLine where
  text : String
  char_mappings : List (Option Nat)
  ends_with_newline : Bool
deriving DecidableEq, Repr

/-- Modelled from the spec: a Layout is an externally built projection of a
byte range into view lines.  Its query capabilities — `(view_line, column)`
to source byte, source byte to nearest `(view_line, column)`, maximum top
line, and source byte at a line start — are carried as function-valued
fields, since their construction (`ui/view_pipeline.rs`) is outside the
provided sources and outside this core's scope. -/
structure Layout where
  lines : List ViewLine
  covered_range : Nat × Nat
  view_position_to_source_byte : Nat → Nat → Option Nat
  source_byte_to_view_position : Nat → Option (Nat × Nat)
  max_top_line : Nat → Nat
  get_source_byte_for_line : Nat → Option Nat

/-- Modelled from the spec: `Viewport { top_view_line, anchor_byte, width }`
plus a derived `visible_line_count()`; the height it derives from is kept
as an explicit field. -/
structure Viewport where
  top_view_line : Nat
  anchor_byte : Nat
  width : Nat
  visible_lines : Nat
deriving DecidableEq, Repr

/-- Modelled from the spec: `visible_line_count()` of a viewport. -/
def Viewport.visible_line_count (v : Viewport) : Nat :=
  v.visible_lines

/-- `move_vertical` from `layout_nav.rs`: requires a resolved `view_line`
(else the cursor is returned unchanged), clamps `current_line + direction`
into `[0, lines.len()-1]`, takes `preferred_col` over the current column
(0 when unresolved), and recomputes the source byte via the layout. -/
def move_vertical (layout : Layout) (cursor : ViewPosition)
    (preferred_col : Option Nat) (direction : Int) : ViewPosition :=
  match cursor.view_line with
  | none => cursor
  | some current_line =>
      let current_col := cursor.column.getD 0
      let target_line :=
        (min (max ((current_line : Int) + direction) 0)
          ((layout.lines.length - 1 : Nat) : Int)).toNat
      let target_col := preferred_col.getD current_col
      ⟨some target_line, some target_col,
        layout.view_position_to_source_byte target_line target_col⟩

/-- `move_horizontal` from `layout_nav.rs`: clamps the line index, computes
`raw_col = max(0, current_col + direction)`, crosses to the next line when
moving right past the end (`raw_col >= line_len`, which includes the
newline slot), crosses to the end of the previous line when moving left
from column 0, and otherwise stays on the line at `min(raw_col, line_len)`. -/
def move_horizontal (layout : Layout) (cursor : ViewPosition)
    (direction : Int) : ViewPosition :=
  match cursor.view_line with
  | none => cursor
  | some current_line =>
      let current_col := cursor.column.getD 0
      let line_idx := min current_line (layout.lines.length - 1)
      let line_len :=
        ((layout.lines.get? line_idx).map fun l => l.char_mappings.length).getD 0
      let raw_col := (max ((current_col : Int) + direction) 0).toNat
      if 0 < direction ∧ line_len ≤ raw_col ∧ line_idx + 1 < layout.lines.length then
        ⟨some (line_idx + 1), some 0,
          layout.view_position_to_source_byte (line_idx + 1) 0⟩
      else if direction < 0 ∧ current_col = 0 ∧ 0 < line_idx then
        let prev_line_idx := line_idx - 1
        let prev_line_len :=
          ((layout.lines.get? prev_line_idx).map fun l => l.char_mappings.length).getD 0
        ⟨some prev_line_idx, some prev_line_len,
          layout.view_position_to_source_byte prev_line_idx prev_line_len⟩
      else
        let target_col := min raw_col line_len
        ⟨some line_idx, some target_col,
          layout.view_position_to_source_byte line_idx target_col⟩

/-- `move_line_start` from `layout_nav.rs`. -/
def move_line_start (layout : Layout) (cursor : ViewPosition) : ViewPosition :=
  match cursor.view_line with
  | none => cursor
  | some current_line =>
      let line_idx := min current_line (layout.lines.length - 1)
      ⟨some line_idx, some 0, layout.view_position_to_source_byte line_idx 0⟩

/-- `move_line_end` from `layout_nav.rs`: column goes to `char_mappings.len()`
of the clamped line (after the last character). -/
def move_line_end (layout : Layout) (cursor : ViewPosition) : ViewPosition :=
  match cursor.view_line with
  | none => cursor
  | some current_line =>
      let line_idx := min current_line (layout.lines.length - 1)
      let line_len :=
        ((layout.lines.get? line_idx).map fun l => l.char_mappings.length).getD 0
      ⟨some line_idx, some line_len,
        layout.view_position_to_source_byte line_idx line_len⟩

/-- `move_page` from `layout_nav.rs`: delegates to `move_vertical` with
`delta = (visible_line_count - 1) * direction` and the cursor's own column
as preferred column. -/
def move_page (layout : Layout) (cursor : ViewPosition) (viewport : Viewport)
    (direction : Int) : ViewPosition :=
  let page := viewport.visible_line_count - 1
  let delta := (page : Int) * direction
  move_vertical layout cursor cursor.column delta

/-- `view_pos_to_source` from `mapping.rs`: requires both view coordinates
resolved, then queries the layout. -/
def view_pos_to_source (layout : Layout) (pos : ViewPosition) : Option Nat := do
  let view_line ← pos.view_line
  let column ← pos.column
  layout.view_position_to_source_byte view_line column

/-- `source_to_view_pos` from `mapping.rs`: nearest `(line, col)` for a byte
(falling back to `(0,0)`), column overridden by `preferred_col` when
supplied, `source_byte` always set. -/
def source_to_view_pos (layout : Layout) (source_byte : Nat)
    (preferred_col : Option Nat) : ViewPosition :=
  let lc := (layout.source_byte_to_view_position source_byte).getD (0, 0)
  let col := preferred_col.getD lc.2
  ⟨some lc.1, some col, some source_byte⟩

/-- `Selection` from `selection.rs`; the Rust field `end` is a Lean keyword
and is named `endPos` here. -/
structure Selection where
  start : ViewPosition
  endPos : ViewPosition
deriving DecidableEq, Repr

/-- `Selection::len` from `selection.rs`: 0 unless both endpoints have
resolved `(view_line, column)`; saturating column difference on a single
line; `line_diff * 80 + end_col` across lines. -/
def Selection.len (sel : Selection) : Nat :=
  match sel.start.view_line, sel.start.column with
  | some start_line, some start_col =>
      match sel.endPos.view_line, sel.endPos.column with
      | some end_line, some end_col =>
          if start_line = end_line then
            end_col - start_col
          else
            let line_diff := end_line - start_line
            line_diff * 80 + end_col
      | _, _ => 0
  | _, _ => 0

/-- Spec-side predicate: some leaf in the slice has an unknown
`line_feed_cnt`. -/
def any_unknown (leaves : List LeafData) : Bool :=
  leaves.any fun l => l.line_feed_cnt.isNone

/-- Spec-side sum of the (known) line-feed counts of a slice. -/
def known_line_feeds (leaves : List LeafData) : Nat :=
  (leaves.map fun l => l.line_feed_cnt.getD 0).sum

/-- Follows the spec's wording (section 4.2, step 7) for the diff's line
range: `None` if any leaf of the after-prefix has an unknown count, else
`lines_before = sum over the prefix`; `lines_in_changed` is forced to `1`
for an empty changed span, else `sum over the span + 1` (or `None` on any
unknown count in the span); the range is
`lines_before .. lines_before + lines_in_changed`. -/
def line_range_spec (pfx changed : List LeafData) : Option (Nat × Nat) :=
  if any_unknown pfx then none
  else
    let lines_before := known_line_feeds pfx
    if changed.isEmpty then some (lines_before, lines_before + 1)
    else if any_unknown changed then none
    else some (lines_before, lines_before + (known_line_feeds changed + 1))

/-- The after-tree prefix slice trimmed by the differ. -/
def after_prefix_slice (bl al : List LeafData) : List LeafData :=
  al.take (common_prefix_len bl al)

/-- The changed span of the after tree: what survives between the common
prefix and the common suffix. -/
def after_changed_slice (bl al : List LeafData) : List LeafData :=
  (al.drop (common_prefix_len bl al)).take
    (al.length - common_suffix_len bl al (common_prefix_len bl al)
      - common_prefix_len bl al)

/-- C2: on the slow path, the computed prefix consists of pairwise-equal
leaves, the prefix and suffix windows never overlap (`p + s` is at most
either length), and `byte_range` starts at the byte sum of the after-prefix
and ends after the byte sum of the changed after-span. -/
def diff_prefix_suffix_property (before after : PieceTreeNode) : Prop :=
  let bl := collect_leaves before
  let al := collect_leaves after
  let pre := common_prefix_len bl al
  let suf := common_suffix_len bl al pre
  leaf_slices_equal (bl.take pre) (al.take pre) = true
    ∧ pre + suf ≤ bl.length
    ∧ pre + suf ≤ al.length
    ∧ (diff_piece_trees before after).byte_range =
        (sum_bytes (al.take pre),
          sum_bytes (al.take pre)
            + sum_bytes ((al.drop pre).take (al.length - suf - pre)))

/-- C3: on the slow path, `line_range` agrees with the spec's description
(`None` propagation from unknown counts, the forced single-line anchor for
a pure deletion); and when the after leaves are a strict pairwise-equal
prefix of the before leaves, the byte range is empty and the line range —
when the after tree's counts are known — spans exactly one line at the
deletion point. -/
def diff_line_range_property (before after : PieceTreeNode) : Prop :=
  (diff_piece_trees before after).line_range =
      line_range_spec
        (after_prefix_slice (collect_leaves before) (collect_leaves after))
        (after_changed_slice (collect_leaves before) (collect_leaves after))
    ∧ ((collect_leaves after).length < (collect_leaves before).length →
        leaf_slices_equal
            ((collect_leaves before).take (collect_leaves after).length)
            (collect_leaves after) = true →
        (diff_piece_trees before after).byte_range.1
            = (diff_piece_trees before after).byte_range.2
          ∧ ∀ n, sum_line_feeds (collect_leaves after) = some n →
              (diff_piece_trees before after).line_range = some (n, n + 1))

/-- The two-line layout of the spec's scenario: `"Hello"` occupying six
char-mapping slots (five letters plus the newline slot) and `"World"`
occupying five, with the natural byte mappings. -/
def hello_world_layout : Layout :=
  { lines :=
      [⟨"Hello\n", [some 0, some 1, some 2, some 3, some 4, some 5], true⟩,
       ⟨"World", [some 6, some 7, some 8, some 9, some 10], false⟩],
    covered_range := (0, 11),
    view_position_to_source_byte := fun line col =>
      ((([[some 0, some 1, some 2, some 3, some 4, some 5],
          [some 6, some 7, some 8, some 9, some 10]] : List (List (Option Nat))).get?
            line).bind fun m => (m.get? col).getD none),
    source_byte_to_view_position := fun b =>
      if b < 6 then some (0, b) else if b < 11 then some (1, b - 6) else none,
    max_top_line := fun _ => 0,
    get_source_byte_for_line := fun line =>
      if line = 0 then some 0 else if line = 1 then some 6 else none }

/-- C7: the line-boundary behaviour of `move_horizontal` — crossing right
to `(line+1, 0)` when `raw_col` reaches the line length (which includes
the newline slot) and a next line exists, crossing left to the full length
of the previous line when at column 0, and otherwise staying on the line
at `min(raw_col, line_len)`. -/
def move_horizontal_property (layout : Layout) (cursor : ViewPosition)
    (direction : Int) (l c : Nat) : Prop :=
  let line_idx := min l (layout.lines.length - 1)
  let line_len :=
    ((layout.lines.get? line_idx).map fun vl => vl.char_mappings.length).getD 0
  let raw_col := (max ((c : Int) + direction) 0).toNat
  (0 < direction → line_len ≤ raw_col → line_idx + 1 < layout.lines.length →
      move_horizontal layout cursor direction =
        ⟨some (line_idx + 1), some 0,
          layout.view_position_to_source_byte (line_idx + 1) 0⟩)
    ∧ (direction < 0 → c = 0 → 0 < line_idx →
        move_horizontal layout cursor direction =
          ⟨some (line_idx - 1),
            some (((layout.lines.get? (line_idx - 1)).map
              fun vl => vl.char_mappings.length).getD 0),
            layout.view_position_to_source_byte (line_idx - 1)
              (((layout.lines.get? (line_idx - 1)).map
                fun vl => vl.char_mappings.length).getD 0)⟩)
    ∧ (¬(0 < direction ∧ line_len ≤ raw_col ∧ line_idx + 1 < layout.lines.length) →
        ¬(direction < 0 ∧ c = 0 ∧ 0 < line_idx) →
        move_horizontal layout cursor direction =
          ⟨some line_idx, some (min raw_col line_len),
            layout.view_position_to_source_byte line_idx (min raw_col line_len)⟩)

/-- Characterization of `leaf_slices_equal`. -/
theorem leaf_slices_equal_iff (a b : List LeafData) :
    leaf_slices_equal a b = true ↔
      a.length = b.length ∧ ∀ p ∈ a.zip b, leaves_equal p.1 p.2 = true := by
  simp [leaf_slices_equal, List.all_eq_true]

/-- The prefix counter never exceeds the first list's length. -/
theorem common_prefix_len_le_left :
    ∀ xs ys : List LeafData, common_prefix_len xs ys ≤ xs.length := by
  intro xs
  induction xs with
  | nil => intro ys; cases ys <;> simp [common_prefix_len]
  | cons x xs ih =>
      intro ys
      cases ys with
      | nil => simp [common_prefix_len]
      | cons y ys =>
          simp only [common_prefix_len, List.length_cons]
          split
          · exact Nat.succ_le_succ (ih ys)
          · exact Nat.zero_le _

/-- The prefix counter never exceeds the second list's length. -/
theorem common_prefix_len_le_right :
    ∀ xs ys : List LeafData, common_prefix_len xs ys ≤ ys.length := by
  intro xs
  induction xs with
  | nil => intro ys; cases ys <;> simp [common_prefix_len]
  | cons x xs ih =>
      intro ys
      cases ys with
      | nil => simp [common_prefix_len]
      | cons y ys =>
          simp only [common_prefix_len, List.length_cons]
          split
          · exact Nat.succ_le_succ (ih ys)
          · exact Nat.zero_le _

/-- The suffix counter never exceeds its fuel (the non-overlap bound). -/
theorem suffix_go_le_cap :
    ∀ (xs ys : List LeafData) (cap : Nat), suffix_go xs ys cap ≤ cap := by
  intro xs
  induction xs with
  | nil => intro ys cap; cases ys <;> cases cap <;> simp [suffix_go]
  | cons x xs ih =>
      intro ys cap
      cases ys with
      | nil => cases cap <;> simp [suffix_go]
      | cons y ys =>
          cases cap with
          | zero => simp [suffix_go]
          | succ c =>
              simp only [suffix_go]
              split
              · exact Nat.succ_le_succ (ih ys c)
              · exact Nat.zero_le _

/-- The leading leaves counted by `common_prefix_len` are pairwise equal. -/
theorem common_prefix_take_pairwise_equal :
    ∀ xs ys : List LeafData,
      leaf_slices_equal (xs.take (common_prefix_len xs ys))
        (ys.take (common_prefix_len xs ys)) = true := by
  intro xs
  induction xs with
  | nil => intro ys; cases ys <;> simp [common_prefix_len, leaf_slices_equal]
  | cons x xs ih =>
      intro ys
      cases ys with
      | nil => simp [common_prefix_len, leaf_slices_equal]
      | cons y ys =>
          simp only [common_prefix_len]
          split
          · rename_i hxy
            rw [List.take_succ_cons, List.take_succ_cons, leaf_slices_equal_iff]
            have ihl := (leaf_slices_equal_iff _ _).mp (ih ys)
            refine ⟨by simp [ihl.1], ?_⟩
            intro p hp
            rw [List.zip_cons_cons, List.mem_cons] at hp
            rcases hp with hp | hp
            · subst hp; exact hxy
            · exact ihl.2 p hp
          · simp [leaf_slices_equal]

/-- Unfolding of `diff_slow` through the named slices. -/
theorem diff_slow_eq (bl al : List LeafData) :
    diff_slow bl al =
      ⟨false,
        (sum_bytes (after_prefix_slice bl al),
          sum_bytes (after_prefix_slice bl al) + sum_bytes (after_changed_slice bl al)),
        (sum_line_feeds (after_prefix_slice bl al)).bind fun lines_before =>
          ((if (after_changed_slice bl al).isEmpty then some 1
            else lines_in_slice (after_changed_slice bl al)).map
            fun lines_in_changed => (lines_before, lines_before + lines_in_changed))⟩ :=
  rfl

/-- `sum_line_feeds` is `none` exactly when some count is unknown, and is
otherwise the plain sum. -/
theorem sum_line_feeds_eq_ite (leaves : List LeafData) :
    sum_line_feeds leaves =
      if any_unknown leaves then none else some (known_line_feeds leaves) := by
  induction leaves with
  | nil => simp [sum_line_feeds, any_unknown, known_line_feeds]
  | cons x xs ih =>
      cases hx : x.line_feed_cnt with
      | none => simp [sum_line_feeds, hx, any_unknown]
      | some c =>
          have hstep : sum_line_feeds (x :: xs)
              = (sum_line_feeds xs).bind fun r => some (c + r) := by
            simp [sum_line_feeds, hx]
          rw [hstep, ih]
          by_cases h : any_unknown xs = true
          · have h' : any_unknown (x :: xs) = true := by
              unfold any_unknown at h ⊢
              simp [List.any_cons, h]
            rw [if_pos h, if_pos h']
            rfl
          · have h' : ¬any_unknown (x :: xs) = true := by
              unfold any_unknown at h ⊢
              simpa [List.any_cons, hx] using h
            rw [if_neg h, if_neg h']
            simp [known_line_feeds, hx]

/-- The differ's line-range computation, on arbitrary prefix and changed
slices, agrees with the spec-worded `line_range_spec`. -/
theorem bind_line_range_eq_spec (pfx changed : List LeafData) :
    ((sum_line_feeds pfx).bind fun lines_before =>
      ((if changed.isEmpty then some 1 else lines_in_slice changed).map
        fun lines_in_changed => (lines_before, lines_before + lines_in_changed)))
    = line_range_spec pfx changed := by
  rw [sum_line_feeds_eq_ite]
  by_cases h1 : any_unknown pfx = true
  · simp [h1, line_range_spec]
  · by_cases h2 : changed.isEmpty = true
    · simp [h1, h2, line_range_spec]
    · by_cases h3 : any_unknown changed = true
      · simp [h1, h2, h3, line_range_spec, lines_in_slice, sum_line_feeds_eq_ite]
      · simp [h1, h2, h3, line_range_spec, lines_in_slice, sum_line_feeds_eq_ite]

/-- With zero fuel the suffix loop counts nothing. -/
theorem suffix_go_zero (xs ys : List LeafData) : suffix_go xs ys 0 = 0 := by
  cases xs <;> cases ys <;> simp [suffix_go]

/-- When the second list is a pairwise-equal prefix of the first, the
prefix loop consumes all of it. -/
theorem common_prefix_len_of_take_eq :
    ∀ (al bl : List LeafData), leaf_slices_equal (bl.take al.length) al = true →
      al.length ≤ bl.length → common_prefix_len bl al = al.length := by
  intro al
  induction al with
  | nil => intro bl _ _; cases bl <;> simp [common_prefix_len]
  | cons y ys ih =>
      intro bl hpfx hlen
      cases bl with
      | nil => simp at hlen
      | cons x xs =>
          rw [List.length_cons, List.take_succ_cons, leaf_slices_equal_iff] at hpfx
          obtain ⟨hl, hall⟩ := hpfx
          have hxy : leaves_equal x y = true := by
            apply hall (x, y)
            rw [List.zip_cons_cons]
            exact List.mem_cons_self _ _
          have hlen' : ys.length ≤ xs.length := by simpa using hlen
          have hrec : common_prefix_len xs ys = ys.length := by
            apply ih
            · rw [leaf_slices_equal_iff]
              refine ⟨by simpa using hl, ?_⟩
              intro p hp
              apply hall
              rw [List.zip_cons_cons]
              exact List.mem_cons_of_mem _ hp
            · exact hlen'
          simp [common_prefix_len, hxy, hrec]

/-- Leaf equality is reflexive. -/
theorem leaves_equal_refl (a : LeafData) : leaves_equal a a = true := by
  simp [leaves_equal]

/-- Elementwise leaf-sequence equality is reflexive. -/
theorem leaf_slices_equal_refl (l : List LeafData) :
    leaf_slices_equal l l = true := by
  induction l with
  | nil => rfl
  | cons x xs ih =>
      rw [leaf_slices_equal_iff] at ih ⊢
      refine ⟨rfl, ?_⟩
      intro p hp
      rw [List.zip_cons_cons, List.mem_cons] at hp
      rcases hp with hp | hp
      · subst hp
        exact leaves_equal_refl x
      · exact ih.2 p hp

/-- C1: if the flattened leaf sequences of the two trees are element-wise
equal, `diff_piece_trees` takes the fast path and returns `equal = true`,
`byte_range = 0..0`, `line_range = Some(0..0)`; in particular `diff(T, T)`
does so for every tree `T`. -/
theorem diff_identity_fast_path :
    (∀ before after : PieceTreeNode,
        leaf_slices_equal (collect_leaves before) (collect_leaves after) = true →
        diff_piece_trees before after = ⟨true, (0, 0), some (0, 0)⟩)
      ∧ ∀ T : PieceTreeNode, diff_piece_trees T T = ⟨true, (0, 0), some (0, 0)⟩ := by
  have hfast : ∀ before after : PieceTreeNode,
      leaf_slices_equal (collect_leaves before) (collect_leaves after) = true →
      diff_piece_trees before after = ⟨true, (0, 0), some (0, 0)⟩ := by
    intro before after h
    simp [diff_piece_trees, h]
  exact ⟨hfast, fun T => hfast T T (leaf_slices_equal_refl _)⟩

/-- Witness for C1: the fast path evaluated on a concrete tree against
itself. -/
theorem diff_identity_fast_path_witness :
    leaf_slices_equal
        (collect_leaves (.Internal 5 (some 0)
          (.Leaf (.Stored 0) 0 5 (some 0)) (.Leaf (.Added 0) 2 3 (some 1))))
        (collect_leaves (.Internal 5 (some 0)
          (.Leaf (.Stored 0) 0 5 (some 0)) (.Leaf (.Added 0) 2 3 (some 1)))) = true
      ∧ diff_piece_trees
        (.Internal 5 (some 0)
          (.Leaf (.Stored 0) 0 5 (some 0)) (.Leaf (.Added 0) 2 3 (some 1)))
        (.Internal 5 (some 0)
          (.Leaf (.Stored 0) 0 5 (some 0)) (.Leaf (.Added 0) 2 3 (some 1)))
        = ⟨true, (0, 0), some (0, 0)⟩ :=
  ⟨by decide, diff_identity_fast_path.1 _ _ (by decide)⟩

/-- C2: the prefix/suffix trimming and the resulting byte range of
`diff_piece_trees` on unequal leaf sequences. -/
theorem diff_prefix_suffix_byte_range (before after : PieceTreeNode)
    (h : leaf_slices_equal (collect_leaves before) (collect_leaves after) = false) :
    diff_prefix_suffix_property before after := by
  unfold diff_prefix_suffix_property
  refine ⟨common_prefix_take_pairwise_equal _ _, ?_, ?_, ?_⟩
  · have h1 := common_prefix_len_le_left (collect_leaves before) (collect_leaves after)
    have h2 := common_prefix_len_le_right (collect_leaves before) (collect_leaves after)
    have h3 := suffix_go_le_cap (collect_leaves before).reverse
      (collect_leaves after).reverse
      (min (collect_leaves before).length (collect_leaves after).length
        - common_prefix_len (collect_leaves before) (collect_leaves after))
    have h4 : min (collect_leaves before).length (collect_leaves after).length
        ≤ (collect_leaves before).length := Nat.min_le_left _ _
    simp only [common_suffix_len]
    omega
  · have h1 := common_prefix_len_le_left (collect_leaves before) (collect_leaves after)
    have h2 := common_prefix_len_le_right (collect_leaves before) (collect_leaves after)
    have h3 := suffix_go_le_cap (collect_leaves before).reverse
      (collect_leaves after).reverse
      (min (collect_leaves before).length (collect_leaves after).length
        - common_prefix_len (collect_leaves before) (collect_leaves after))
    have h4 : min (collect_leaves before).length (collect_leaves after).length
        ≤ (collect_leaves after).length := Nat.min_le_right _ _
    simp only [common_suffix_len]
    omega
  · simp [diff_piece_trees, h, diff_slow]

/-- Witness for C2: leaves `[A, B, C]` against `[A, X, C]`, prefix 1 and
suffix 1, changed span `[X]`. -/
theorem diff_prefix_suffix_byte_range_witness :
    leaf_slices_equal
        (collect_leaves (.Internal 3 (some 0) (.Leaf (.Stored 0) 0 3 (some 0))
          (.Internal 4 (some 1) (.Leaf (.Stored 0) 3 4 (some 1))
            (.Leaf (.Stored 0) 7 2 (some 0)))))
        (collect_leaves (.Internal 3 (some 0) (.Leaf (.Stored 0) 0 3 (some 0))
          (.Internal 5 (some 0) (.Leaf (.Added 0) 0 5 (some 0))
            (.Leaf (.Stored 0) 7 2 (some 0))))) = false
      ∧ diff_prefix_suffix_property
        (.Internal 3 (some 0) (.Leaf (.Stored 0) 0 3 (some 0))
          (.Internal 4 (some 1) (.Leaf (.Stored 0) 3 4 (some 1))
            (.Leaf (.Stored 0) 7 2 (some 0))))
        (.Internal 3 (some 0) (.Leaf (.Stored 0) 0 3 (some 0))
          (.Internal 5 (some 0) (.Leaf (.Added 0) 0 5 (some 0))
            (.Leaf (.Stored 0) 7 2 (some 0)))) :=
  ⟨by decide, diff_prefix_suffix_byte_range _ _ (by decide)⟩

/-- C3: the line range reported by `diff_piece_trees` on unequal leaf
sequences, including unknown-count propagation and deletion anchoring. -/
theorem diff_line_range_matches_spec (before after : PieceTreeNode)
    (h : leaf_slices_equal (collect_leaves before) (collect_leaves after) = false) :
    diff_line_range_property before after := by
  unfold diff_line_range_property
  have hdiff : diff_piece_trees before after
      = diff_slow (collect_leaves before) (collect_leaves after) := by
    simp [diff_piece_trees, h]
  refine ⟨?_, ?_⟩
  · rw [hdiff, diff_slow_eq]
    exact bind_line_range_eq_spec _ _
  · intro hlen hpfx
    have hpre : common_prefix_len (collect_leaves before) (collect_leaves after)
        = (collect_leaves after).length :=
      common_prefix_len_of_take_eq _ _ hpfx (Nat.le_of_lt hlen)
    have hsuf : common_suffix_len (collect_leaves before) (collect_leaves after)
        ((collect_leaves after).length) = 0 := by
      unfold common_suffix_len
      rw [Nat.min_eq_right (Nat.le_of_lt hlen), Nat.sub_self]
      exact suffix_go_zero _ _
    have hspan : after_changed_slice (collect_leaves before) (collect_leaves after)
        = [] := by
      unfold after_changed_slice
      rw [hpre, hsuf]
      simp [List.drop_length]
    have hprefix_slice : after_prefix_slice (collect_leaves before)
        (collect_leaves after) = collect_leaves after := by
      unfold after_prefix_slice
      rw [hpre, List.take_length]
    constructor
    · rw [hdiff, diff_slow_eq]
      simp [hspan, sum_bytes]
    · intro n hn
      rw [hdiff, diff_slow_eq]
      simp [hspan, hprefix_slice, hn]

/-- Witness for C3: deleting the trailing leaf entirely (after is a strict
prefix of before) — the deletion-anchoring scenario of the spec's tests. -/
theorem diff_line_range_matches_spec_witness :
    leaf_slices_equal
        (collect_leaves (.Internal 6 (some 1) (.Leaf (.Stored 0) 0 6 (some 1))
          (.Leaf (.Stored 0) 6 4 (some 0))))
        (collect_leaves (.Leaf (.Stored 0) 0 6 (some 1))) = false
      ∧ diff_line_range_property
        (.Internal 6 (some 1) (.Leaf (.Stored 0) 0 6 (some 1))
          (.Leaf (.Stored 0) 6 4 (some 0)))
        (.Leaf (.Stored 0) 0 6 (some 1)) :=
  ⟨by decide, diff_line_range_matches_spec _ _ (by decide)⟩

/-- C4: leaf equality is backing-buffer identity — `location`, `offset` and
`bytes` must all match, while decoded text and `line_feed_cnt` are ignored
— and consequently diffing a single-leaf stored tree against a single-leaf
added tree of the same shape reports the whole span changed:
`byte_range = 0..5`, `line_range = Some(0..1)`. -/
theorem leaves_equal_iff_buffer_identity :
    (∀ a b : LeafData, leaves_equal a b = true ↔
        a.location = b.location ∧ a.offset = b.offset ∧ a.bytes = b.bytes)
      ∧ diff_piece_trees (.Leaf (.Stored 0) 0 5 (some 0))
          (.Leaf (.Added 0) 0 5 (some 0))
        = ⟨false, (0, 5), some (0, 1)⟩ := by
  constructor
  · intro a b
    simp [leaves_equal, and_assoc]
  · decide

/-- C5: every navigation function is a no-op on a cursor whose `view_line`
is unresolved: `move_vertical`, `move_horizontal`, `move_line_start`,
`move_line_end` and `move_page` all return the cursor unchanged. -/
theorem nav_unresolved_view_line_noop (layout : Layout) (cursor : ViewPosition)
    (preferred_col : Option Nat) (direction : Int) (viewport : Viewport)
    (h : cursor.view_line = none) :
    move_vertical layout cursor preferred_col direction = cursor
      ∧ move_horizontal layout cursor direction = cursor
      ∧ move_line_start layout cursor = cursor
      ∧ move_line_end layout cursor = cursor
      ∧ move_page layout cursor viewport direction = cursor := by
  obtain ⟨vl, col, sb⟩ := cursor
  simp only [ViewPosition.mk.injEq] at h ⊢
  cases h
  refine ⟨rfl, rfl, rfl, rfl, rfl⟩

/-- Witness for C5: a concrete unresolved cursor on a concrete layout. -/
theorem nav_unresolved_view_line_noop_witness :
    (⟨none, some 3, some 7⟩ : ViewPosition).view_line = none
      ∧ move_vertical
          ⟨[⟨"hi", [some 0, some 1], false⟩], (0, 2),
            fun _ _ => none, fun _ => none, fun _ => 0, fun _ => none⟩
          ⟨none, some 3, some 7⟩ (some 1) 1 = ⟨none, some 3, some 7⟩
      ∧ move_horizontal
          ⟨[⟨"hi", [some 0, some 1], false⟩], (0, 2),
            fun _ _ => none, fun _ => none, fun _ => 0, fun _ => none⟩
          ⟨none, some 3, some 7⟩ 1 = ⟨none, some 3, some 7⟩
      ∧ move_line_start
          ⟨[⟨"hi", [some 0, some 1], false⟩], (0, 2),
            fun _ _ => none, fun _ => none, fun _ => 0, fun _ => none⟩
          ⟨none, some 3, some 7⟩ = ⟨none, some 3, some 7⟩
      ∧ move_line_end
          ⟨[⟨"hi", [some 0, some 1], false⟩], (0, 2),
            fun _ _ => none, fun _ => none, fun _ => 0, fun _ => none⟩
          ⟨none, some 3, some 7⟩ = ⟨none, some 3, some 7⟩
      ∧ move_page
          ⟨[⟨"hi", [some 0, some 1], false⟩], (0, 2),
            fun _ _ => none, fun _ => none, fun _ => 0, fun _ => none⟩
          ⟨none, some 3, some 7⟩ ⟨0, 0, 80, 24⟩ 1 = ⟨none, some 3, some 7⟩ := by
  refine ⟨rfl, ?_⟩
  have h := nav_unresolved_view_line_noop
    ⟨[⟨"hi", [some 0, some 1], false⟩], (0, 2),
      fun _ _ => none, fun _ => none, fun _ => 0, fun _ => none⟩
    ⟨none, some 3, some 7⟩ (some 1) 1 ⟨0, 0, 80, 24⟩ rfl
  exact ⟨h.1, h.2.1, h.2.2.1, h.2.2.2.1, h.2.2.2.2⟩

/-- C6: with a non-empty layout and a resolved `view_line` of any
magnitude, `move_vertical` clamps `current_line + direction` into
`[0, lines.len() - 1]` (so the result is always in range), and the result
column is the preferred column when supplied, else the current column —
with no clamping of the column to the destination line's length. -/
theorem move_vertical_clamps_line_keeps_column (layout : Layout)
    (cursor : ViewPosition) (preferred_col : Option Nat) (direction : Int)
    (l : Nat) (hne : layout.lines ≠ []) (hl : cursor.view_line = some l) :
    (move_vertical layout cursor preferred_col direction).view_line =
        some ((min (max ((l : Int) + direction) 0)
          ((layout.lines.length - 1 : Nat) : Int)).toNat)
      ∧ (∀ t, (move_vertical layout cursor preferred_col direction).view_line = some t →
          t < layout.lines.length)
      ∧ ∀ c, cursor.column = some c →
          (move_vertical layout cursor preferred_col direction).column =
            some (preferred_col.getD c) := by
  obtain ⟨vl, col, sb⟩ := cursor
  simp only [ViewPosition.mk.injEq] at hl
  cases hl
  have hlen : 0 < layout.lines.length := List.length_pos.mpr hne
  refine ⟨rfl, ?_, ?_⟩
  · intro t ht
    simp only [move_vertical, Option.some.injEq] at ht
    have hmin : min (max ((l : Int) + direction) 0)
        ((layout.lines.length - 1 : Nat) : Int)
        ≤ ((layout.lines.length - 1 : Nat) : Int) := min_le_right _ _
    have := Int.toNat_le_toNat hmin
    rw [Int.toNat_natCast] at this
    omega
  · intro c hc
    simp only [ViewPosition.mk.injEq] at hc
    cases hc
    rfl

/-- Witness for C6: moving far down from line 1 of a three-line layout
lands on the last line with the (unclamped) preferred column. -/
theorem move_vertical_clamps_line_keeps_column_witness :
    (⟨[⟨"a", [some 0], true⟩, ⟨"b", [some 2], true⟩, ⟨"c", [some 4], false⟩], (0, 5),
        fun _ _ => none, fun _ => none, fun _ => 0, fun _ => none⟩ :
      Layout).lines ≠ []
      ∧ (⟨some 1, some 2, none⟩ : ViewPosition).view_line = some 1
      ∧ ((move_vertical
            ⟨[⟨"a", [some 0], true⟩, ⟨"b", [some 2], true⟩, ⟨"c", [some 4], false⟩], (0, 5),
              fun _ _ => none, fun _ => none, fun _ => 0, fun _ => none⟩
            ⟨some 1, some 2, none⟩ (some 99) 100).view_line =
          some ((min (max ((1 : Int) + 100) 0) (((3 - 1 : Nat) : Int))).toNat)
        ∧ (∀ t, (move_vertical
            ⟨[⟨"a", [some 0], true⟩, ⟨"b", [some 2], true⟩, ⟨"c", [some 4], false⟩], (0, 5),
              fun _ _ => none, fun _ => none, fun _ => 0, fun _ => none⟩
            ⟨some 1, some 2, none⟩ (some 99) 100).view_line = some t → t < 3)
        ∧ ∀ c, (⟨some 1, some 2, none⟩ : ViewPosition).column = some c →
            (move_vertical
              ⟨[⟨"a", [some 0], true⟩, ⟨"b", [some 2], true⟩, ⟨"c", [some 4], false⟩], (0, 5),
                fun _ _ => none, fun _ => none, fun _ => 0, fun _ => none⟩
              ⟨some 1, some 2, none⟩ (some 99) 100).column =
              some ((some 99).getD c)) := by
  refine ⟨by simp, rfl, ?_⟩
  exact move_vertical_clamps_line_keeps_column _ _ (some 99) 100 1 (by simp) rfl

/-- C7: `move_horizontal` boundary crossing, plus the `["Hello", "World"]`
scenario — right by one from `(0, 5)` reaches `(1, 0)` and left by one
from `(1, 0)` reaches `(0, 6)`. -/
theorem move_horizontal_boundary_crossing (layout : Layout)
    (cursor : ViewPosition) (direction : Int) (l c : Nat)
    (hl : cursor.view_line = some l) (hc : cursor.column = some c) :
    move_horizontal_property layout cursor direction l c
      ∧ (move_horizontal hello_world_layout ⟨some 0, some 5, some 5⟩ 1).view_line
          = some 1
      ∧ (move_horizontal hello_world_layout ⟨some 0, some 5, some 5⟩ 1).column
          = some 0
      ∧ (move_horizontal hello_world_layout ⟨some 1, some 0, some 6⟩ (-1)).view_line
          = some 0
      ∧ (move_horizontal hello_world_layout ⟨some 1, some 0, some 6⟩ (-1)).column
          = some 6 := by
  refine ⟨?_, by decide, by decide, by decide, by decide⟩
  unfold move_horizontal_property
  refine ⟨?_, ?_, ?_⟩
  · intro h1 h2 h3
    rw [move_horizontal.eq_def, hl]
    simp only [hc, Option.getD_some]
    split_ifs with hA hB
    · rfl
    · exact absurd ⟨h1, h2, h3⟩ hA
    · exact absurd ⟨h1, h2, h3⟩ hA
  · intro h1 h2 h3
    rw [move_horizontal.eq_def, hl]
    simp only [hc, Option.getD_some]
    split_ifs with hA hB
    · exact absurd hA.1 (by omega)
    · rfl
    · exact absurd ⟨h1, h2, h3⟩ hB
  · intro hn1 hn2
    rw [move_horizontal.eq_def, hl]
    simp only [hc, Option.getD_some]
    split_ifs
    rfl

/-- Witness for C7: staying on the line when moving right mid-line in the
hello/world layout. -/
theorem move_horizontal_boundary_crossing_witness :
    (⟨some 0, some 2, some 2⟩ : ViewPosition).view_line = some 0
      ∧ (⟨some 0, some 2, some 2⟩ : ViewPosition).column = some 2
      ∧ move_horizontal_property hello_world_layout ⟨some 0, some 2, some 2⟩ 1 0 2 :=
  ⟨rfl, rfl,
    (move_horizontal_boundary_crossing hello_world_layout
      ⟨some 0, some 2, some 2⟩ 1 0 2 rfl rfl).1⟩

/-- C8: for a byte inside the layout's covered range on which the layout's
two lookup directions agree (the byte resolves to a view position, and that
view position resolves back to the byte — the layout has an unambiguous
mapping there), `view_pos_to_source` after `source_to_view_pos` with no
preferred column round-trips to the same byte. -/
theorem mapping_round_trip (layout : Layout) (b line col : Nat)
    (_hcov : layout.covered_range.1 ≤ b ∧ b < layout.covered_range.2)
    (hsv : layout.source_byte_to_view_position b = some (line, col))
    (hvs : layout.view_position_to_source_byte line col = some b) :
    view_pos_to_source layout (source_to_view_pos layout b none) = some b := by
  simp [view_pos_to_source, source_to_view_pos, hsv, hvs]

/-- Witness for C8: a one-line layout whose two mapping directions agree at
byte 0. -/
theorem mapping_round_trip_witness :
    ((⟨[⟨"a", [some 0], false⟩], (0, 1),
        fun line col => if line = 0 ∧ col = 0 then some 0 else none,
        fun b => if b = 0 then some (0, 0) else none,
        fun _ => 0, fun _ => none⟩ : Layout).covered_range.1 ≤ 0
        ∧ 0 < (⟨[⟨"a", [some 0], false⟩], (0, 1),
            fun line col => if line = 0 ∧ col = 0 then some 0 else none,
            fun b => if b = 0 then some (0, 0) else none,
            fun _ => 0, fun _ => none⟩ : Layout).covered_range.2)
      ∧ view_pos_to_source
          ⟨[⟨"a", [some 0], false⟩], (0, 1),
            fun line col => if line = 0 ∧ col = 0 then some 0 else none,
            fun b => if b = 0 then some (0, 0) else none,
            fun _ => 0, fun _ => none⟩
          (source_to_view_pos
            ⟨[⟨"a", [some 0], false⟩], (0, 1),
              fun line col => if line = 0 ∧ col = 0 then some 0 else none,
              fun b => if b = 0 then some (0, 0) else none,
              fun _ => 0, fun _ => none⟩
            0 none) = some 0 :=
  ⟨⟨Nat.le.refl, Nat.one_pos⟩,
    mapping_round_trip _ 0 0 0 ⟨Nat.le.refl, Nat.one_pos⟩ rfl rfl⟩

/-- C9: `Selection::len` is 0 whenever either endpoint lacks a resolved
`view_line` or `column`; on a single view line it is the saturating column
difference; across view lines it is the fixed-width approximation
`line_diff * 80 + end_col`. -/
theorem selection_len_cases (sel : Selection) :
    ((sel.start.view_line = none ∨ sel.start.column = none
        ∨ sel.endPos.view_line = none ∨ sel.endPos.column = none) →
      sel.len = 0)
      ∧ ∀ sl sc el ec,
          sel.start.view_line = some sl → sel.start.column = some sc →
          sel.endPos.view_line = some el → sel.endPos.column = some ec →
          (sl = el → sel.len = ec - sc)
            ∧ (sl ≠ el → sel.len = (el - sl) * 80 + ec) := by
  obtain ⟨⟨svl, scol, ssb⟩, ⟨evl, ecol, esb⟩⟩ := sel
  constructor
  · intro h
    rcases svl with _ | sl
    · rfl
    rcases scol with _ | sc
    · rfl
    rcases evl with _ | el
    · rfl
    rcases ecol with _ | ec
    · rfl
    rcases h with h | h | h | h <;> simp at h
  · intro sl sc el ec h1 h2 h3 h4
    simp only [ViewPosition.mk.injEq] at h1 h2 h3 h4
    cases h1; cases h2; cases h3; cases h4
    constructor
    · intro he
      simp [Selection.len, he]
    · intro hne
      simp [Selection.len, hne]

/-- Witness for C9: a multi-line selection from `(0, 2)` to `(3, 4)` has
the approximate length `3 * 80 + 4`. -/
theorem selection_len_cases_witness :
    Selection.len ⟨⟨some 0, some 2, none⟩, ⟨some 3, some 4, none⟩⟩
      = (3 - 0) * 80 + 4 :=
  ((selection_len_cases ⟨⟨some 0, some 2, none⟩, ⟨some 3, some 4, none⟩⟩).2
    0 2 3 4 rfl rfl rfl rfl).2 (by decide)

/-- C10: when `view_line` is resolved but `column` is not, `move_vertical`
and `move_horizontal` do not fall into the unchanged-cursor path: they
behave exactly as if the current column were 0, and return a position with
both `view_line` and `column` resolved — in particular a position different
from the input cursor. -/
theorem nav_missing_column_defaults_to_zero (layout : Layout)
    (cursor : ViewPosition) (preferred_col : Option Nat) (direction : Int)
    (l : Nat) (hl : cursor.view_line = some l) (hc : cursor.column = none) :
    move_vertical layout cursor preferred_col direction =
        move_vertical layout ⟨some l, some 0, cursor.source_byte⟩
          preferred_col direction
      ∧ move_horizontal layout cursor direction =
        move_horizontal layout ⟨some l, some 0, cursor.source_byte⟩ direction
      ∧ (move_vertical layout cursor preferred_col direction).view_line.isSome = true
      ∧ (move_vertical layout cursor preferred_col direction).column.isSome = true
      ∧ move_vertical layout cursor preferred_col direction ≠ cursor
      ∧ (move_horizontal layout cursor direction).view_line.isSome = true
      ∧ (move_horizontal layout cursor direction).column.isSome = true
      ∧ move_horizontal layout cursor direction ≠ cursor := by
  obtain ⟨vl, col, sb⟩ := cursor
  simp only [ViewPosition.mk.injEq] at hl hc
  cases hl
  cases hc
  refine ⟨rfl, rfl, rfl, rfl, ?_, ?_, ?_, ?_⟩
  · intro hcon
    simp only [move_vertical, ViewPosition.mk.injEq] at hcon
    exact Option.some_ne_none _ hcon.2.1
  · rw [move_horizontal.eq_def]
    simp only
    split_ifs <;> rfl
  · rw [move_horizontal.eq_def]
    simp only
    split_ifs <;> rfl
  · intro hcon
    rw [move_horizontal.eq_def] at hcon
    simp only at hcon
    split_ifs at hcon <;>
      (simp only [ViewPosition.mk.injEq] at hcon
       exact Option.some_ne_none _ hcon.2.1)

/-- Witness for C10: a cursor on line 1 with unresolved column, moved
vertically and horizontally on a two-line layout. -/
theorem nav_missing_column_defaults_to_zero_witness :
    (⟨some 1, none, some 6⟩ : ViewPosition).view_line = some 1
      ∧ (⟨some 1, none, some 6⟩ : ViewPosition).column = none
      ∧ (move_vertical hello_world_layout ⟨some 1, none, some 6⟩ none 1 =
            move_vertical hello_world_layout ⟨some 1, some 0, some 6⟩ none 1
          ∧ move_horizontal hello_world_layout ⟨some 1, none, some 6⟩ 1 =
            move_horizontal hello_world_layout ⟨some 1, some 0, some 6⟩ 1
          ∧ (move_vertical hello_world_layout
              ⟨some 1, none, some 6⟩ none 1).view_line.isSome = true
          ∧ (move_vertical hello_world_layout
              ⟨some 1, none, some 6⟩ none 1).column.isSome = true
          ∧ move_vertical hello_world_layout ⟨some 1, none, some 6⟩ none 1
              ≠ ⟨some 1, none, some 6⟩
          ∧ (move_horizontal hello_world_layout
              ⟨some 1, none, some 6⟩ 1).view_line.isSome = true
          ∧ (move_horizontal hello_world_layout
              ⟨some 1, none, some 6⟩ 1).column.isSome = true
          ∧ move_horizontal hello_world_layout ⟨some 1, none, some 6⟩ 1
              ≠ ⟨some 1, none, some 6⟩) :=
  ⟨rfl, rfl,
    nav_missing_column_defaults_to_zero hello_world_layout
      ⟨some 1, none, some 6⟩ none 1 1 rfl rfl⟩
